import Mathlib

/-!
# Verification of the `learn-blockchain` ledger engine

A shallow embedding of `src/blockchain.py`: a single-node blockchain with
SHA-256 hash-chained blocks, a brute-force proof-of-work puzzle, pairwise
chain validation, and a longest-reported-chain consensus rule.

Modelling conventions:
* Python machine-level values are `Nat`/`Int` with explicit `% 2^32` where
  32-bit overflow matters (the SHA-256 compression function).
* `hashlib.sha256(...).hexdigest()` is embedded as an executable SHA-256
  over byte lists (`sha256hex`), validated against FIPS 180-4 test vectors.
* `json.dumps(d, sort_keys=True)` is embedded as `dictDumps`: each value is
  rendered, then the key/value pairs are sorted by key and joined with the
  default separators `", "` and `": "`.  Python dictionaries are embedded as
  insertion-ordered association lists.
* Code that raises an exception is embedded with `Option`/`none` for the
  raising outcome (`chain[0]` on an empty list, `requests.get` raising,
  a 200 response whose JSON body lacks the expected keys).
* The network is embedded by passing `resolve_conflicts` the list of
  per-peer fetch outcomes in iteration order.
-/

set_option maxRecDepth 100000

namespace LearnBlockchain

/-! ## SHA-256 (`hashlib.sha256`) -/

/-- 2^32, the modulus for 32-bit words. -/
def M32 : Nat := 4294967296

/-- Rotate a 32-bit word right by `n` bits. -/
def rotr (n x : Nat) : Nat := x / 2 ^ n + x % 2 ^ n * 2 ^ (32 - n)

/-- Shift a 32-bit word right by `n` bits. -/
def shr (n x : Nat) : Nat := x / 2 ^ n

/-- SHA-256 big sigma 0. -/
def bsig0 (x : Nat) : Nat := rotr 2 x ^^^ rotr 13 x ^^^ rotr 22 x

/-- SHA-256 big sigma 1. -/
def bsig1 (x : Nat) : Nat := rotr 6 x ^^^ rotr 11 x ^^^ rotr 25 x

/-- SHA-256 small sigma 0. -/
def ssig0 (x : Nat) : Nat := rotr 7 x ^^^ rotr 18 x ^^^ shr 3 x

/-- SHA-256 small sigma 1. -/
def ssig1 (x : Nat) : Nat := rotr 17 x ^^^ rotr 19 x ^^^ shr 10 x

/-- SHA-256 choice function. -/
def chF (x y z : Nat) : Nat := x &&& y ^^^ (x ^^^ 4294967295) &&& z

/-- SHA-256 majority function. -/
def maj (x y z : Nat) : Nat := x &&& y ^^^ x &&& z ^^^ y &&& z

/-- SHA-256 round constants. -/
def K256 : List Nat :=
  [1116352408, 1899447441, 3049323471, 3921009573, 961987163, 1508970993,
   2453635748, 2870763221, 3624381080, 310598401, 607225278, 1426881987,
   1925078388, 2162078206, 2614888103, 3248222580, 3835390401, 4022224774,
   264347078, 604807628, 770255983, 1249150122, 1555081692, 1996064986,
   2554220882, 2821834349, 2952996808, 3210313671, 3336571891, 3584528711,
   113926993, 338241895, 666307205, 773529912, 1294757372, 1396182291,
   1695183700, 1986661051, 2177026350, 2456956037, 2730485921, 2820302411,
   3259730800, 3345764771, 3516065817, 3600352804, 4094571909, 275423344,
   430227734, 506948616, 659060556, 883997877, 958139571, 1322822218,
   1537002063, 1747873779, 1955562222, 2024104815, 2227730452, 2361852424,
   2428436474, 2756734187, 3204031479, 3329325298]

/-- SHA-256 initial hash value. -/
def H256 : List Nat :=
  [1779033703, 3144134277, 1013904242, 2773480762, 1359893119, 2600822924,
   528734635, 1541459225]

/-- Big-endian 8-byte encoding of a natural number. -/
def be64 (n : Nat) : List Nat :=
  [n / 2 ^ 56 % 256, n / 2 ^ 48 % 256, n / 2 ^ 40 % 256, n / 2 ^ 32 % 256,
   n / 2 ^ 24 % 256, n / 2 ^ 16 % 256, n / 2 ^ 8 % 256, n % 256]

/-- SHA-256 padding: append `0x80`, zero bytes up to 56 mod 64, then the bit length. -/
def sha256pad (msg : List Nat) : List Nat :=
  let L := msg.length
  let z := (56 + 64 - (L + 1) % 64) % 64
  msg ++ 128 :: List.replicate z 0 ++ be64 (8 * L)

/-- Group bytes into big-endian 32-bit words. -/
def toWords : List Nat → List Nat
  | b0 :: b1 :: b2 :: b3 :: rest => (((b0 * 256 + b1) * 256 + b2) * 256 + b3) :: toWords rest
  | _ => []

/-- One step of the message-schedule extension: append the word computed from
the words 2, 7, 15 and 16 places back. -/
def extendStep (acc : List Nat) : List Nat :=
  let l := acc.length
  acc ++ [(ssig1 (acc.getD (l - 2) 0) + acc.getD (l - 7) 0 +
           ssig0 (acc.getD (l - 15) 0) + acc.getD (l - 16) 0) % M32]

/-- Iterate `extendStep`. -/
def extendLoop : Nat → List Nat → List Nat
  | 0, acc => acc
  | n + 1, acc => extendLoop n (extendStep acc)

/-- Extend a 16-word chunk to the 64-word message schedule. -/
def schedule (chunk : List Nat) : List Nat := extendLoop 48 chunk

/-- The SHA-256 working state: eight 32-bit words. -/
abbrev Work := Nat × Nat × Nat × Nat × Nat × Nat × Nat × Nat

/-- One SHA-256 compression round with round constant `kw.1` and schedule word `kw.2`. -/
def round256 (s : Work) (kw : Nat × Nat) : Work :=
  let (a, b, c, d, e, f, g, h) := s
  let t1 := (h + bsig1 e + chF e f g + kw.1 + kw.2) % M32
  let t2 := (bsig0 a + maj a b c) % M32
  ((t1 + t2) % M32, a, b, c, (d + t1) % M32, e, f, g)

/-- Compress one 16-word chunk into the running hash value. -/
def compress (hs : List Nat) : List Nat → List Nat
  | chunk =>
    match hs with
    | [h0, h1, h2, h3, h4, h5, h6, h7] =>
      let (a, b, c, d, e, f, g, h) :=
        (List.zip K256 (schedule chunk)).foldl round256 (h0, h1, h2, h3, h4, h5, h6, h7)
      [(h0 + a) % M32, (h1 + b) % M32, (h2 + c) % M32, (h3 + d) % M32,
       (h4 + e) % M32, (h5 + f) % M32, (h6 + g) % M32, (h7 + h) % M32]
    | _ => hs

/-- Process `fuel` 16-word chunks of `ws`, starting from hash state `hs`. -/
def chunkLoop : Nat → List Nat → List Nat → List Nat
  | 0, hs, _ => hs
  | n + 1, hs, ws => chunkLoop n (compress hs (ws.take 16)) (ws.drop 16)

/-- SHA-256 of a byte sequence, as the list of eight 32-bit hash words. -/
def sha256words (msg : List Nat) : List Nat :=
  let ws := toWords (sha256pad msg)
  chunkLoop (ws.length / 16) H256 ws

/-- Lower-case hex digit for a nibble. -/
def hexChar (n : Nat) : Char := Char.ofNat (if n < 10 then 48 + n else 87 + n)

/-- Eight lower-case hex digits of a 32-bit word. -/
def wordHexChars (w : Nat) : List Char :=
  [hexChar (w / 2 ^ 28 % 16), hexChar (w / 2 ^ 24 % 16), hexChar (w / 2 ^ 20 % 16),
   hexChar (w / 2 ^ 16 % 16), hexChar (w / 2 ^ 12 % 16), hexChar (w / 2 ^ 8 % 16),
   hexChar (w / 2 ^ 4 % 16), hexChar (w % 16)]

/-- The hex digest of SHA-256 over a byte sequence, as
`hashlib.sha256(bytes).hexdigest()`. -/
def sha256hex (msg : List Nat) : String :=
  String.mk ((sha256words msg).flatMap wordHexChars)

/-- UTF-8 encoding of one character, as Python `str.encode()`. -/
def charBytes (c : Char) : List Nat :=
  let n := c.toNat
  if n < 128 then [n]
  else if n < 2048 then [192 + n / 64, 128 + n % 64]
  else if n < 65536 then [224 + n / 4096, 128 + n / 64 % 64, 128 + n % 64]
  else [240 + n / 262144, 128 + n / 4096 % 64, 128 + n / 64 % 64, 128 + n % 64]

/-- UTF-8 bytes of a string, as Python `str.encode()`. -/
def utf8Bytes (s : String) : List Nat := s.data.flatMap charBytes

/-! ## JSON serialization (`json.dumps(..., sort_keys=True)`) -/

/-- Escaping of one character in a JSON string, following Python's `json.dumps`
with its default `ensure_ascii=True`: printable ASCII other than `"` and `\`
is kept, the standard short escapes are used, and everything else becomes
`\uXXXX` (with surrogate pairs beyond the BMP). -/
def escChar (c : Char) : List Char :=
  let uhex : Nat → List Char := fun n =>
    ['\\', 'u', hexChar (n / 4096 % 16), hexChar (n / 256 % 16), hexChar (n / 16 % 16),
     hexChar (n % 16)]
  if c = '"' then ['\\', '"']
  else if c = '\\' then ['\\', '\\']
  else if c = '\n' then ['\\', 'n']
  else if c = '\r' then ['\\', 'r']
  else if c = '\t' then ['\\', 't']
  else if c.toNat = 8 then ['\\', 'b']
  else if c.toNat = 12 then ['\\', 'f']
  else if c.toNat < 32 then uhex c.toNat
  else if c.toNat < 127 then [c]
  else if c.toNat < 65536 then uhex c.toNat
  else uhex (55296 + (c.toNat - 65536) / 1024) ++ uhex (56320 + (c.toNat - 65536) % 1024)

/-- A JSON string literal, double-quoted and escaped. -/
def jsonQuote (s : String) : String :=
  String.mk ('"' :: s.data.flatMap escChar ++ ['"'])

/-- A transaction record `{sender, recipient, amount}` as built by
`Blockchain.new_transaction`. -/
structure Transaction where
  sender : String
  recipient : String
  amount : Int
deriving DecidableEq, Repr

/-- The value stored in a block's `previous_hash` field: the genesis block
carries the Python integer `1`, every other block carries a hex-digest
string. -/
inductive HashVal where
  | num (n : Int)
  | str (s : String)
deriving DecidableEq, Repr

/-- A JSON value occurring as a field of a block record: an integer, a
string, or the list of transaction objects. -/
inductive JVal where
  | num (n : Int)
  | str (s : String)
  | txs (ts : List Transaction)
deriving DecidableEq, Repr

/-- Join already-rendered key/value pairs with the `json.dumps` default
separators `", "` and `": "`. -/
def joinPairs : List (String × String) → String
  | [] => ""
  | [kv] => jsonQuote kv.1 ++ ": " ++ kv.2
  | kv :: kv' :: rest => jsonQuote kv.1 ++ ": " ++ kv.2 ++ ", " ++ joinPairs (kv' :: rest)

/-- Python's string ordering: lexicographic comparison of code points.
Defined structurally so that sorting reduces in the kernel. -/
def charListLe : List Char → List Char → Bool
  | [], _ => true
  | _ :: _, [] => false
  | c :: cs, d :: ds =>
    if c.toNat < d.toNat then true
    else if d.toNat < c.toNat then false
    else charListLe cs ds

/-- `a <= b` on Python strings. -/
def keyLe (a b : String) : Bool := charListLe a.data b.data

/-- Sort rendered key/value pairs by key, as `sort_keys=True` does.  Python's
sort compares the `(key, value)` item tuples, but dictionary keys are unique,
so ordering by key alone is the same function. -/
def sortPairs (ps : List (String × String)) : List (String × String) :=
  List.insertionSort (fun a b => keyLe a.1 b.1 = true) ps

/-- Serialize a JSON object from rendered key/value pairs: sort by key,
join, and wrap in braces. -/
def objDumps (fs : List (String × String)) : String :=
  "\x7b" ++ joinPairs (sortPairs fs) ++ "\x7d"

/-- `json.dumps` of one transaction object. -/
def txDumps (t : Transaction) : String :=
  objDumps [("sender", jsonQuote t.sender), ("recipient", jsonQuote t.recipient),
            ("amount", toString t.amount)]

/-- Comma-join of rendered transaction objects. -/
def txsJoin : List Transaction → String
  | [] => ""
  | [t] => txDumps t
  | t :: t' :: rest => txDumps t ++ ", " ++ txsJoin (t' :: rest)

/-- `json.dumps` of the transactions array. -/
def txsDumps (ts : List Transaction) : String := "[" ++ txsJoin ts ++ "]"

/-- Render one JSON value. -/
def jvalDumps : JVal → String
  | .num n => toString n
  | .str s => jsonQuote s
  | .txs ts => txsDumps ts

/-- Render the value of one dictionary entry. -/
def renderPair (kv : String × JVal) : String × String := (kv.1, jvalDumps kv.2)

/-- `json.dumps(d, sort_keys=True)` of a dictionary, given as the
insertion-ordered association list of its entries. -/
def dictDumps (fs : List (String × JVal)) : String :=
  objDumps (fs.map renderPair)

/-- SHA-256 hex digest of a dictionary's canonical serialization; this is
the body of `Blockchain.hash` applied to a dict-shaped block record. -/
def hashDict (fs : List (String × JVal)) : String :=
  sha256hex (utf8Bytes (dictDumps fs))

/-- A block record, with the fields `Blockchain.new_block` stores (this
program's blocks carry no timestamp). -/
structure Block where
  index : Int
  transactions : List Transaction
  proof : Int
  previous_hash : HashVal
deriving DecidableEq, Repr

/-- The dictionary entries of a block, in the insertion order used by
`Blockchain.new_block`. -/
def blockFields (b : Block) : List (String × JVal) :=
  [("index", .num b.index), ("transactions", .txs b.transactions),
   ("proof", .num b.proof),
   ("previous_hash", match b.previous_hash with | .num n => .num n | .str s => .str s)]

/-! ## The `Blockchain` class -/

/-- The state of a `Blockchain` object.  `neigbouring_nodes` (sic) is a
Python `set`, embedded as a duplicate-free list. -/
structure Blockchain where
  chain : List Block
  current_transactions : List Transaction
  neigbouring_nodes : List String
deriving DecidableEq, Repr

/-- `Blockchain.hash`: SHA-256 of `json.dumps(block, sort_keys=True)`. -/
def Blockchain.hash (block : Block) : String := hashDict (blockFields block)

/-- `Blockchain.valid_proof`: SHA-256 of the concatenated decimal forms of the
two proofs must start with four `'0'` hex characters. -/
def Blockchain.valid_proof (last_proof current_proof : Int) : Bool :=
  (sha256hex (utf8Bytes (toString last_proof ++ toString current_proof))).take 4 == "0000"

/-- `Blockchain.proof_of_work`: starting from 0, increment a candidate until
`valid_proof` holds.  The while loop is embedded as `Nat.find`, whose value at
the hypothesis that some candidate succeeds is exactly the loop's result. -/
def Blockchain.proof_of_work (last_proof : Int)
    (h : ∃ c : Nat, Blockchain.valid_proof last_proof c = true) : Nat :=
  Nat.find h

/-- `Blockchain.last_block`: `chain[-1]`, which raises `IndexError` (`none`)
on an empty chain. -/
def Blockchain.last_block (self : Blockchain) : Option Block :=
  self.chain.getLast?

/-- Python truthiness of a `previous_hash` value: `0` and `""` are falsy. -/
def truthy : HashVal → Bool
  | .num n => n != 0
  | .str s => s != ""

/-- The value of `previous_hash or self.hash(self.last_block)` in
`new_block`: a truthy argument is used as given, otherwise the hash of the
last block is computed (raising, `none`, when the chain is empty). -/
def Blockchain.previous_hash_value (self : Blockchain) (previous_hash : Option HashVal) :
    Option HashVal :=
  match previous_hash with
  | some v => if truthy v then some v else self.last_block.map fun lb => .str (Blockchain.hash lb)
  | none => self.last_block.map fun lb => .str (Blockchain.hash lb)

/-- `Blockchain.new_block`: build the block record, clear the pending
transactions, and append the block to the chain. -/
def Blockchain.new_block (self : Blockchain) (proof : Int) (previous_hash : Option HashVal) :
    Option (Block × Blockchain) :=
  (self.previous_hash_value previous_hash).map fun ph =>
    let block : Block :=
      { index := (self.chain.length : Int) + 1,
        transactions := self.current_transactions,
        proof := proof,
        previous_hash := ph }
    (block, { self with chain := self.chain ++ [block], current_transactions := [] })

/-- `Blockchain.new_transaction`: buffer the transaction and return
`last_block['index'] + 1` (raising, `none`, on an empty chain). -/
def Blockchain.new_transaction (self : Blockchain) (sender recipient : String) (amount : Int) :
    Option (Int × Blockchain) :=
  self.last_block.map fun lb =>
    (lb.index + 1,
     { self with current_transactions := self.current_transactions ++ [⟨sender, recipient, amount⟩] })

/-- The genesis block created by `Blockchain.__init__` via
`new_block(previous_hash=1, proof=100)` on the empty chain. -/
def genesis_block : Block :=
  { index := 1, transactions := [], proof := 100, previous_hash := .num 1 }

/-- The state of a freshly constructed `Blockchain` object. -/
def Blockchain.init : Blockchain :=
  { chain := [genesis_block], current_transactions := [], neigbouring_nodes := [] }

/-! ## `urlparse(...).netloc` and `register_node`

`urlparse` is modelled from CPython 3.11's `urllib.parse` and `ipaddress`,
including its `ValueError` paths (`none`): an unbalanced `[`/`]` in the
netloc, and a bracketed host that is neither a valid IPvFuture literal nor
a valid IPv6 literal (an IPv4 literal in brackets also raises).  The one
remaining check, `_checknetloc`'s NFKC-normalization test, returns without
raising whenever the netloc is ASCII; it is modelled as passing, and the
C9 theorem restricts its addresses to ASCII so that the model is only ever
applied inside that domain. -/

/-- The WHATWG preprocessing of `urlsplit`: strip leading C0-control/space
characters, then remove every tab, carriage return and line feed. -/
def urlPreprocess (cs : List Char) : List Char :=
  (cs.dropWhile fun c => decide (c.toNat ≤ 32)).filter fun c =>
    c != '\t' && c != '\r' && c != '\n'

/-- A character allowed in a URL scheme (`string.ascii_letters + digits + '+-.'`). -/
def isSchemeChar (c : Char) : Bool :=
  c.isAlpha || c.isDigit || c = '+' || c = '-' || c = '.'

/-- Strip a leading `scheme:` (first colon, non-empty all-scheme-char prefix
starting with an ASCII letter), as CPython's `urlsplit` does. -/
def stripScheme (cs : List Char) : List Char :=
  let pre := cs.takeWhile (· ≠ ':')
  if pre.length < cs.length && !pre.isEmpty &&
      (match pre with | c :: _ => c.isAlpha | [] => false) && pre.all isSchemeChar then
    cs.drop (pre.length + 1)
  else cs

/-- Split a character list on a separator, keeping empty pieces, as
Python `str.split(sep)`. -/
def splitOn (sep : Char) : List Char → List (List Char)
  | [] => [[]]
  | c :: rest =>
    match splitOn sep rest with
    | [] => [[]]
    | p :: ps => if c = sep then [] :: p :: ps else (c :: p) :: ps

/-- An ASCII hexadecimal digit (`ipaddress._IPv6Constants._HEX_DIGITS`). -/
def isHexCh (c : Char) : Bool :=
  c.isDigit || (decide (97 ≤ c.toNat) && decide (c.toNat ≤ 102)) ||
    (decide (65 ≤ c.toNat) && decide (c.toNat ≤ 70))

/-- A valid IPv6 hextet: one to four hex digits (`_parse_hextet`). -/
def hextetOk (p : List Char) : Bool :=
  !p.isEmpty && decide (p.length ≤ 4) && p.all isHexCh

/-- A valid dotted-decimal octet (`IPv4Address._parse_octet`): one to three
ASCII digits, no leading zero, value at most 255. -/
def octetOk (o : List Char) : Bool :=
  !o.isEmpty && decide (o.length ≤ 3) && o.all Char.isDigit &&
    !(decide (1 < o.length) && o.headD ' ' == '0') &&
    decide (o.foldl (fun v c => v * 10 + (c.toNat - 48)) 0 ≤ 255)

/-- A valid IPv4 literal: exactly four valid octets. -/
def isIPv4 (p : List Char) : Bool :=
  let octs := splitOn '.' p
  octs.length == 4 && octs.all octetOk

/-- The structure checks of `IPv6Address._ip_int_from_string` on the
colon-separated parts (after any trailing-IPv4 replacement): at most 9
parts; without a `::` exactly 8 non-empty hextets; with one `::` (a single
empty inner part at index `i`) a leading or trailing empty part is allowed
only as the other half of a leading/trailing `::`, at least one group is
skipped, and every other part is a valid hextet. -/
def ipv6PartsOk (parts : List (List Char)) : Bool :=
  let n := parts.length
  if 9 < n then false
  else
    let inner := (parts.drop 1).take (n - 2)
    match (inner.filter List.isEmpty).length with
    | 0 => n == 8 && parts.all hextetOk
    | 1 =>
      let i := 1 + (inner.takeWhile fun p => !p.isEmpty).length
      let first := parts.headD []
      let last := parts.getLastD []
      ((!first.isEmpty) || i == 1) && ((!last.isEmpty) || i == n - 2) &&
        decide ((if first.isEmpty then 0 else i) +
          (if last.isEmpty then 0 else n - 1 - i) ≤ 7) &&
        ((parts.take i).all fun p => p.isEmpty || hextetOk p) &&
        ((parts.drop (i + 1)).all fun p => p.isEmpty || hextetOk p)
    | _ => false

/-- A valid IPv6 address body: at least three colon-separated parts, a
trailing dotted part must be a valid IPv4 literal (contributing two
hextets), and the parts must satisfy `ipv6PartsOk`. -/
def isIPv6Addr (addr : List Char) : Bool :=
  let parts := splitOn ':' addr
  if parts.length < 3 then false
  else
    let last := parts.getLastD []
    if last.contains '.' then
      isIPv4 last && ipv6PartsOk (parts.dropLast ++ [['0'], ['0']])
    else ipv6PartsOk parts

/-- A valid IPv6 literal with an optional non-empty `%scope` (CPython's
`IPv6Address` with `_split_scope_id`). -/
def isIPv6 (h : List Char) : Bool :=
  let addr := h.takeWhile (· ≠ '%')
  if addr.length == h.length then isIPv6Addr h
  else
    let scope := h.drop (addr.length + 1)
    !scope.isEmpty && !(scope.contains '%') && isIPv6Addr addr

/-- The text between the first `[` and the first following `]` of a netloc
(`netloc.partition('[')[2].partition(']')[0]`). -/
def bracketedHost (nl : List Char) : List Char :=
  ((nl.dropWhile (· ≠ '[')).drop 1).takeWhile (· ≠ ']')

/-- `urllib.parse._check_bracketed_host`: an IPvFuture literal
(`v`, one or more hex digits, `.`, a non-empty rest) or a valid IPv6
literal; anything else — including an IPv4 literal — raises. -/
def checkBracketedHost (h : List Char) : Bool :=
  match h with
  | 'v' :: rest =>
    let hexs := rest.takeWhile isHexCh
    !hexs.isEmpty &&
      (match rest.drop hexs.length with
       | '.' :: tail => !tail.isEmpty
       | _ => false)
  | _ => isIPv6 h

/-- `urlparse(address).netloc`: after WHATWG preprocessing and scheme
stripping, the part between a leading `//` and the first `/`, `?` or `#`
(empty when there is no `//`); `none` where CPython raises `ValueError`
(bracket mismatch, invalid bracketed host). -/
def netloc (address : String) : Option String :=
  match stripScheme (urlPreprocess address.data) with
  | '/' :: '/' :: rest =>
    let nl := rest.takeWhile fun c => c ≠ '/' && c ≠ '?' && c ≠ '#'
    if (nl.contains '[') != (nl.contains ']') then none
    else if nl.contains '[' && nl.contains ']' then
      if checkBracketedHost (bracketedHost nl) then some (String.mk nl) else none
    else some (String.mk nl)
  | _ => some ""

/-- Python `set.add`, embedded on duplicate-free lists. -/
def setAdd (s : List String) (x : String) : List String :=
  if x ∈ s then s else s ++ [x]

/-- `Blockchain.register_node`: add `urlparse(address).netloc` to the node
set; when `urlparse` raises, the exception propagates (`none`) and the
node set is unchanged. -/
def Blockchain.register_node (self : Blockchain) (address : String) : Option Blockchain :=
  (netloc address).map fun n =>
    { self with neigbouring_nodes := setAdd self.neigbouring_nodes n }

/-! ## `valid_chain` and `resolve_conflicts` -/

/-- The comparison `current_block['previous_hash'] != self.hash(last_block)`,
as a match predicate: a Python `int` never equals a `str`. -/
def prevHashMatches : HashVal → String → Bool
  | .str s, h => s == h
  | .num _, _ => false

/-- The body of the `valid_chain` loop, carrying `last_block` through the
remaining blocks. -/
def Blockchain.valid_loop (last_block : Block) : List Block → Bool
  | [] => true
  | current_block :: rest =>
    if prevHashMatches current_block.previous_hash (Blockchain.hash last_block) = false then false
    else if Blockchain.valid_proof last_block.proof current_block.proof = false then false
    else Blockchain.valid_loop current_block rest

/-- `Blockchain.valid_chain`: `chain[0]` raises `IndexError` (`none`) on an
empty candidate; otherwise walk consecutive pairs. -/
def Blockchain.valid_chain (chain : List Block) : Option Bool :=
  match chain with
  | [] => none
  | first :: rest => some (Blockchain.valid_loop first rest)

/-- Specification-side pairwise check for one consecutive pair of blocks:
the successor's `previous_hash` is the predecessor's hash, and the proof
pair satisfies the proof-of-work predicate. -/
def pairHolds (a b : Block) : Bool :=
  prevHashMatches b.previous_hash (Blockchain.hash a) && Blockchain.valid_proof a.proof b.proof

/-- Specification-side chain validity, following the spec's words: every
consecutive pair `(block[i], block[i+1])` from index 0 passes `pairHolds`;
vacuously true for at most one block. -/
def chainPairsOk : List Block → Bool
  | [] => true
  | [_] => true
  | a :: b :: rest => pairHolds a b && chainPairsOk (b :: rest)

/-- The outcome of `requests.get(f'http://node/chain')` for one peer,
followed by the accesses `response.json()['length']` and
`response.json()['chain']`:
* `raised`: the request itself raised (unreachable peer, timeout);
* `ok status none`: a response whose JSON body lacks the expected keys
  (or is not JSON), so the accesses would raise;
* `ok status (some (length, chain))`: a well-formed response reporting
  `length` (as sent, not recomputed) and `chain`. -/
inductive PeerResponse where
  | raised : PeerResponse
  | ok (status_code : Nat) (body : Option (Int × List Block)) : PeerResponse
deriving DecidableEq, Repr

/-- The `resolve_conflicts` loop over the per-peer outcomes: a non-200
status is skipped; a raised request or a malformed 200 body propagates the
exception (`none`); a well-formed 200 response with a reported length
strictly greater than the current chain's length and a `valid_chain` body
replaces the chain. -/
def Blockchain.resolve_loop (self : Blockchain) (replaced : Bool) :
    List PeerResponse → Option (Bool × Blockchain)
  | [] => some (replaced, self)
  | .raised :: _ => none
  | .ok status body :: rest =>
    if status = 200 then
      match body with
      | none => none
      | some (length, chain) =>
        if (self.chain.length : Int) < length then
          match Blockchain.valid_chain chain with
          | none => none
          | some true => Blockchain.resolve_loop { self with chain := chain } true rest
          | some false => Blockchain.resolve_loop self replaced rest
        else Blockchain.resolve_loop self replaced rest
    else Blockchain.resolve_loop self replaced rest

/-- `Blockchain.resolve_conflicts`, given the list of per-peer fetch
outcomes in iteration order. -/
def Blockchain.resolve_conflicts (self : Blockchain) (responses : List PeerResponse) :
    Option (Bool × Blockchain) :=
  Blockchain.resolve_loop self false responses

/-- A peer response is honest when a well-formed 200 body reports the true
length of the chain it carries. -/
def honest : PeerResponse → Bool
  | .ok 200 (some (length, chain)) => length == (chain.length : Int)
  | _ => true

/-! ## Helper lemmas -/

/-- `charListLe` is total. -/
theorem charListLe_total : ∀ x y : List Char, charListLe x y = true ∨ charListLe y x = true := by
  intro x
  induction x with
  | nil => intro y; left; rfl
  | cons c cs ih =>
    intro y
    cases y with
    | nil => right; rfl
    | cons d ds =>
      by_cases h1 : c.toNat < d.toNat
      · left; simp [charListLe, h1]
      · by_cases h2 : d.toNat < c.toNat
        · right; simp [charListLe, h2]
        · rcases ih ds with h | h
          · left; simp [charListLe, h1, h2, h]
          · right; simp [charListLe, h1, h2, h]

/-- `charListLe` is transitive. -/
theorem charListLe_trans : ∀ x y z : List Char,
    charListLe x y = true → charListLe y z = true → charListLe x z = true := by
  intro x
  induction x with
  | nil => intro y z _ _; rfl
  | cons a as ih =>
    intro y z h1 h2
    cases y with
    | nil => simp [charListLe] at h1
    | cons b bs =>
      cases z with
      | nil => simp [charListLe] at h2
      | cons c cs =>
        simp only [charListLe] at h1 h2 ⊢
        rcases Nat.lt_trichotomy a.toNat b.toNat with hab | hab | hab
        · rcases Nat.lt_trichotomy b.toNat c.toNat with hbc | hbc | hbc
          · rw [if_pos (show a.toNat < c.toNat by omega)]
          · rw [if_pos (show a.toNat < c.toNat by omega)]
          · rw [if_neg (by omega), if_pos hbc] at h2
            exact absurd h2 Bool.false_ne_true
        · rcases Nat.lt_trichotomy b.toNat c.toNat with hbc | hbc | hbc
          · rw [if_pos (show a.toNat < c.toNat by omega)]
          · rw [if_neg (by omega), if_neg (by omega)] at h1 h2 ⊢
            exact ih bs cs h1 h2
          · rw [if_neg (by omega), if_pos hbc] at h2
            exact absurd h2 Bool.false_ne_true
        · rw [if_neg (by omega), if_pos hab] at h1
          exact absurd h1 Bool.false_ne_true

/-- `charListLe` is antisymmetric. -/
theorem charListLe_antisymm : ∀ x y : List Char,
    charListLe x y = true → charListLe y x = true → x = y := by
  intro x
  induction x with
  | nil =>
    intro y h1 h2
    cases y with
    | nil => rfl
    | cons d ds => simp [charListLe] at h2
  | cons a as ih =>
    intro y h1 h2
    cases y with
    | nil => simp [charListLe] at h1
    | cons b bs =>
      simp only [charListLe] at h1 h2
      rcases Nat.lt_trichotomy a.toNat b.toNat with hab | hab | hab
      · rw [if_neg (by omega), if_pos hab] at h2
        exact absurd h2 Bool.false_ne_true
      · rw [if_neg (by omega), if_neg (by omega)] at h1 h2
        have hc : a = b := Char.ext (UInt32.toNat.inj hab)
        rw [hc, ih bs h1 h2]
      · rw [if_neg (by omega), if_pos hab] at h1
        exact absurd h1 Bool.false_ne_true

/-- `keyLe` is antisymmetric on strings. -/
theorem keyLe_antisymm (a b : String) (h1 : keyLe a b = true) (h2 : keyLe b a = true) : a = b :=
  congrArg String.mk (charListLe_antisymm a.data b.data h1 h2)

/-- The `valid_chain` loop computes exactly the pairwise predicate. -/
theorem valid_loop_eq_pairs (a : Block) (l : List Block) :
    Blockchain.valid_loop a l = chainPairsOk (a :: l) := by
  induction l generalizing a with
  | nil => rfl
  | cons b r ih =>
    cases hp : prevHashMatches b.previous_hash (Blockchain.hash a) with
    | false => simp [Blockchain.valid_loop, chainPairsOk, pairHolds, hp]
    | true =>
      cases hq : Blockchain.valid_proof a.proof b.proof with
      | false => simp [Blockchain.valid_loop, chainPairsOk, pairHolds, hp, hq]
      | true => simp [Blockchain.valid_loop, chainPairsOk, pairHolds, hp, hq, ih]

/-- On a non-empty candidate, `valid_chain` returns the pairwise predicate. -/
theorem valid_chain_eq_pairs (chain : List Block) (h : chain ≠ []) :
    Blockchain.valid_chain chain = some (chainPairsOk chain) := by
  cases chain with
  | nil => exact absurd rfl h
  | cons a l => simp [Blockchain.valid_chain, valid_loop_eq_pairs]

/-- `prevHashMatches` holds exactly at the string equal to the digest. -/
theorem prevHashMatches_iff (v : HashVal) (h : String) :
    prevHashMatches v h = true ↔ v = .str h := by
  cases v with
  | num n => simp [prevHashMatches]
  | str s => simp [prevHashMatches]

/-- A valid chain validates every embedded consecutive pair. -/
theorem chainPairsOk_pair : ∀ (l₁ : List Block) {a b : Block} (l₂ : List Block),
    chainPairsOk (l₁ ++ a :: b :: l₂) = true → pairHolds a b = true := by
  intro l₁
  induction l₁ with
  | nil =>
    intro a b l₂ h
    simp only [List.nil_append, chainPairsOk, Bool.and_eq_true] at h
    exact h.1
  | cons x xs ih =>
    intro a b l₂ h
    cases xs with
    | nil =>
      simp only [List.cons_append, List.nil_append, chainPairsOk, Bool.and_eq_true] at h
      exact h.2.1
    | cons y ys =>
      simp only [List.cons_append, chainPairsOk, Bool.and_eq_true] at h
      exact ih l₂ h.2

/-- A failing consecutive pair makes the whole pairwise predicate false. -/
theorem chainPairsOk_break : ∀ (l₁ : List Block) {a b : Block} (l₂ : List Block),
    pairHolds a b = false → chainPairsOk (l₁ ++ a :: b :: l₂) = false := by
  intro l₁
  induction l₁ with
  | nil => intro a b l₂ h; simp [chainPairsOk, h]
  | cons x xs ih =>
    intro a b l₂ h
    cases xs with
    | nil => simp [chainPairsOk, h]
    | cons y ys =>
      have hrec := ih l₂ h
      simp only [List.cons_append] at hrec ⊢
      simp [chainPairsOk, hrec]

/-- `set.add` puts the element in the set. -/
theorem mem_setAdd_self (s : List String) (x : String) : x ∈ setAdd s x := by
  unfold setAdd
  split
  · assumption
  · exact List.mem_append_right _ (List.mem_singleton.mpr rfl)

/-- Adding the same element twice is a no-op the second time. -/
theorem setAdd_idem (s : List String) (x : String) : setAdd (setAdd s x) x = setAdd s x := by
  show (if x ∈ setAdd s x then setAdd s x else setAdd s x ++ [x]) = setAdd s x
  rw [if_pos (mem_setAdd_self s x)]

/-- `sortPairs` permutes its input. -/
theorem sortPairs_perm (m : List (String × String)) : (sortPairs m).Perm m :=
  List.perm_insertionSort _ m

/-- `sortPairs` sorts by key. -/
theorem sortPairs_sorted (m : List (String × String)) :
    List.Sorted (fun a b : String × String => keyLe a.1 b.1 = true) (sortPairs m) := by
  haveI : IsTotal (String × String) fun a b => keyLe a.1 b.1 = true :=
    ⟨fun a b => charListLe_total a.1.data b.1.data⟩
  haveI : IsTrans (String × String) fun a b => keyLe a.1 b.1 = true :=
    ⟨fun a b c => charListLe_trans a.1.data b.1.data c.1.data⟩
  exact List.sorted_insertionSort _ m

/-- On duplicate-free keys, sorting by key is a function of the entry set:
permuted inputs sort to the same list. -/
theorem sortPairs_eq_of_perm (m₁ m₂ : List (String × String)) (hp : m₁.Perm m₂)
    (hn : (m₁.map Prod.fst).Nodup) : sortPairs m₁ = sortPairs m₂ := by
  haveI : IsAntisymm (String × String) fun a b => keyLe a.1 b.1 = true ∧ a.1 ≠ b.1 :=
    ⟨fun a b h h' => absurd (keyLe_antisymm a.1 b.1 h.1 h'.1) h.2⟩
  have hsymm : ∀ {a b : String × String}, a.1 ≠ b.1 → b.1 ≠ a.1 := fun h => h.symm
  have hperm : (sortPairs m₁).Perm (sortPairs m₂) :=
    (sortPairs_perm m₁).trans (hp.trans (sortPairs_perm m₂).symm)
  have hn' : List.Pairwise (fun a b : String × String => a.1 ≠ b.1) m₁ :=
    List.pairwise_map.mp hn
  have hn₁ : List.Pairwise (fun a b : String × String => a.1 ≠ b.1) (sortPairs m₁) :=
    ((sortPairs_perm m₁).pairwise_iff hsymm).mpr hn'
  have hn₂ : List.Pairwise (fun a b : String × String => a.1 ≠ b.1) (sortPairs m₂) :=
    ((sortPairs_perm m₂).pairwise_iff hsymm).mpr ((hp.pairwise_iff hsymm).mp hn')
  exact List.eq_of_perm_of_sorted hperm ((sortPairs_sorted m₁).and hn₁)
    ((sortPairs_sorted m₂).and hn₂)

/-- The canonical (`sort_keys=True`) dictionary hash depends only on the set
of entries when keys are duplicate-free. -/
theorem hashDict_eq_of_perm (f₁ f₂ : List (String × JVal)) (hperm : f₁.Perm f₂)
    (hnd : (f₁.map Prod.fst).Nodup) : hashDict f₁ = hashDict f₂ := by
  have hfst : (f₁.map renderPair).map Prod.fst = f₁.map Prod.fst := by
    simp [List.map_map, renderPair, Function.comp]
  unfold hashDict dictDumps objDumps
  rw [sortPairs_eq_of_perm (f₁.map renderPair) (f₂.map renderPair) (hperm.map renderPair)
    (by rw [hfst]; exact hnd)]

/-- `new_block` on a successfully computed `previous_hash`. -/
theorem new_block_some (self : Blockchain) (proof : Int) (ph : Option HashVal) (v : HashVal)
    (hph : self.previous_hash_value ph = some v) :
    self.new_block proof ph =
      some (⟨(self.chain.length : Int) + 1, self.current_transactions, proof, v⟩,
        { self with
            chain := self.chain ++
              [⟨(self.chain.length : Int) + 1, self.current_transactions, proof, v⟩],
            current_transactions := [] }) := by
  unfold Blockchain.new_block
  rw [hph]
  rfl

/-- A chain that `valid_chain` accepts or rejects is non-empty. -/
theorem valid_chain_ne_nil (chain : List Block) (b : Bool)
    (h : Blockchain.valid_chain chain = some b) : chain ≠ [] := by
  intro hnil
  subst hnil
  simp [Blockchain.valid_chain] at h

/-- The `resolve_conflicts` loop preserves non-emptiness of the chain. -/
theorem resolve_loop_ne_nil : ∀ (rs : List PeerResponse) (self : Blockchain) (replaced : Bool)
    (res : Bool × Blockchain), self.chain ≠ [] →
    Blockchain.resolve_loop self replaced rs = some res → res.2.chain ≠ [] := by
  intro rs
  induction rs with
  | nil =>
    intro self replaced res hne h
    have h' := Option.some.inj h
    subst h'
    exact hne
  | cons r rest ih =>
    intro self replaced res hne h
    cases r with
    | raised => exact absurd h (by simp [Blockchain.resolve_loop])
    | ok status body =>
      by_cases hs : status = 200
      · subst hs
        simp only [Blockchain.resolve_loop, if_pos rfl] at h
        cases body with
        | none => simp at h
        | some lc =>
          obtain ⟨len, ch⟩ := lc
          simp only at h
          by_cases hl : (self.chain.length : Int) < len
          · rw [if_pos hl] at h
            cases hv : Blockchain.valid_chain ch with
            | none => rw [hv] at h; simp at h
            | some b =>
              rw [hv] at h
              cases b with
              | true => exact ih _ true res (valid_chain_ne_nil ch true hv) h
              | false => exact ih self replaced res hne h
          · rw [if_neg hl] at h
            exact ih self replaced res hne h
      · simp only [Blockchain.resolve_loop, if_neg hs] at h
        exact ih self replaced res hne h

/-- Invariant of the `resolve_conflicts` loop under honest length reporting:
the chain length never decreases, and if the final flag is still false then
nothing was adopted and the state is unchanged. -/
theorem resolve_loop_invariant : ∀ (rs : List PeerResponse) (self : Blockchain) (replaced : Bool)
    (res : Bool × Blockchain), (∀ r ∈ rs, honest r = true) →
    Blockchain.resolve_loop self replaced rs = some res →
    self.chain.length ≤ res.2.chain.length ∧ (res.1 = false → replaced = false ∧ res.2 = self) := by
  intro rs
  induction rs with
  | nil =>
    intro self replaced res _ h
    have h' := Option.some.inj h
    subst h'
    exact ⟨le_refl _, fun hf => ⟨hf, rfl⟩⟩
  | cons r rest ih =>
    intro self replaced res hh h
    have hhr : honest r = true := hh r (List.mem_cons_self r rest)
    have hht : ∀ x ∈ rest, honest x = true := fun x hx => hh x (List.mem_cons_of_mem r hx)
    cases r with
    | raised => exact absurd h (by simp [Blockchain.resolve_loop])
    | ok status body =>
      by_cases hs : status = 200
      · subst hs
        simp only [Blockchain.resolve_loop, if_pos rfl] at h
        cases body with
        | none => simp at h
        | some lc =>
          obtain ⟨len, ch⟩ := lc
          simp only at h
          by_cases hl : (self.chain.length : Int) < len
          · rw [if_pos hl] at h
            cases hv : Blockchain.valid_chain ch with
            | none => rw [hv] at h; simp at h
            | some b =>
              rw [hv] at h
              cases b with
              | true =>
                have hlen : len = (ch.length : Int) := by
                  simpa [honest] using hhr
                have hlt : self.chain.length < ch.length := by
                  rw [hlen] at hl
                  exact_mod_cast hl
                have hrec := ih { self with chain := ch } true res hht h
                refine ⟨le_trans (le_of_lt hlt) hrec.1, fun hf => ?_⟩
                exact absurd (hrec.2 hf).1 (by simp)
              | false => exact ih self replaced res hht h
          · rw [if_neg hl] at h
            exact ih self replaced res hht h
      · simp only [Blockchain.resolve_loop, if_neg hs] at h
        exact ih self replaced res hht h

/-! ## Claims -/

/-- **C2** (corrected).  `valid_chain` walks consecutive pairs from index 0,
checking the `previous_hash` link and the proof-of-work predicate, and is
extensionally the all-pairs predicate `chainPairsOk` — returning false iff
some pair fails, true for one block or when every pair passes.  The claim's
empty-sequence case is corrected separately: `chain[0]` raises. -/
theorem C2_valid_chain_pairwise (chain : List Block) (h : chain ≠ []) :
    Blockchain.valid_chain chain = some (chainPairsOk chain) :=
  valid_chain_eq_pairs chain h

/-- Witness for C2 at the one-block chain `[genesis_block]`. -/
theorem C2_valid_chain_pairwise_witness :
    ([genesis_block] ≠ ([] : List Block)) ∧
    Blockchain.valid_chain [genesis_block] = some (chainPairsOk [genesis_block]) :=
  ⟨by decide, C2_valid_chain_pairwise [genesis_block] (by decide)⟩

/-- Counterexample for C2 as stated: on the empty sequence `valid_chain`
raises (`chain[0]` is an `IndexError`), it does not return true. -/
theorem C2_empty_chain_counterexample :
    Blockchain.valid_chain [] = none ∧ Blockchain.valid_chain [] ≠ some true :=
  ⟨rfl, by decide⟩

/-- **C4** (corrected).  Only a response that arrives with a non-200 status is
skipped (leaving the chain untouched and continuing with the remaining
peers); a fetch that raises (unreachable peer, timeout) or a 200 response
with a malformed body propagates the exception to the caller. -/
theorem C4_fetch_errors (self : Blockchain) (status : Nat)
    (body : Option (Int × List Block)) (rest : List PeerResponse) (h : status ≠ 200) :
    Blockchain.resolve_conflicts self (.ok status body :: rest) =
      Blockchain.resolve_conflicts self rest ∧
    Blockchain.resolve_conflicts self (.raised :: rest) = none ∧
    Blockchain.resolve_conflicts self (.ok 200 none :: rest) = none := by
  refine ⟨?_, rfl, rfl⟩
  simp [Blockchain.resolve_conflicts, Blockchain.resolve_loop, h]

/-- Witness for C4 at a 404 response. -/
theorem C4_fetch_errors_witness :
    (404 ≠ 200) ∧
    Blockchain.resolve_conflicts ⟨[genesis_block], [], []⟩ [.ok 404 none] =
      Blockchain.resolve_conflicts ⟨[genesis_block], [], []⟩ [] :=
  ⟨by decide, (C4_fetch_errors ⟨[genesis_block], [], []⟩ 404 none [] (by decide)).1⟩

/-- Counterexample for C4 as stated: an unreachable peer (the request
raises) escalates out of `resolve_conflicts` instead of being skipped, and
so does a 200 response whose body lacks the expected keys. -/
theorem C4_raised_escalates_counterexample :
    Blockchain.resolve_conflicts ⟨[genesis_block], [], ["peer"]⟩ [.raised] = none ∧
    Blockchain.resolve_conflicts ⟨[genesis_block], [], ["peer"]⟩ [.ok 200 none] = none :=
  ⟨rfl, rfl⟩

/-- **C5** (confirmed).  When some valid successor proof exists, the
proof-of-work search returns the least candidate satisfying `valid_proof`;
in particular the returned value satisfies the predicate. -/
theorem C5_proof_of_work_least (last_proof : Int)
    (h : ∃ c : Nat, Blockchain.valid_proof last_proof c = true) :
    Blockchain.valid_proof last_proof (Blockchain.proof_of_work last_proof h) = true ∧
    ∀ c : Nat, c < Blockchain.proof_of_work last_proof h →
      Blockchain.valid_proof last_proof c = false := by
  refine ⟨Nat.find_spec h, fun c hc => ?_⟩
  have hmin := Nat.find_min h hc
  simpa using hmin

/-- Witness for C5 at `last_proof = 100`, where candidate 35293 succeeds. -/
theorem C5_proof_of_work_least_witness :
    Blockchain.valid_proof 100 35293 = true ∧
    Blockchain.valid_proof 100 (Blockchain.proof_of_work 100 ⟨35293, by decide⟩) = true :=
  ⟨by decide, (C5_proof_of_work_least 100 ⟨35293, by decide⟩).1⟩

/-- **C9** (corrected).  For an ASCII address string on which
`urlparse(address).netloc` succeeds with `n`, registration stores `n` (the
scheme-less `host:port` identity) in the peer set and re-registering the
same address is a no-op.  The ASCII hypothesis keeps the address inside the
modelled domain, where `_checknetloc`'s NFKC path provably never raises.
The claim's universal quantification over all address strings fails:
`urlparse` raises `ValueError` for some addresses (see the
counterexample), and then `register_node` stores nothing. -/
theorem C9_register_idempotent (self : Blockchain) (address : String) (n : String)
    (_hascii : address.data.all (fun c => decide (c.toNat < 128)) = true)
    (h : netloc address = some n) :
    self.register_node address =
      some { self with neigbouring_nodes := setAdd self.neigbouring_nodes n } ∧
    n ∈ setAdd self.neigbouring_nodes n ∧
    (self.register_node address).bind (fun st => st.register_node address) =
      self.register_node address ∧
    netloc "http://192.168.0.5:5000" = some "192.168.0.5:5000" := by
  refine ⟨?_, mem_setAdd_self _ _, ?_, by decide⟩
  · simp [Blockchain.register_node, h]
  · simp [Blockchain.register_node, h, setAdd_idem]

/-- Witness for C9 at the spec's example address. -/
theorem C9_register_idempotent_witness :
    ("http://192.168.0.5:5000".data.all (fun c => decide (c.toNat < 128)) = true) ∧
    netloc "http://192.168.0.5:5000" = some "192.168.0.5:5000" ∧
    (⟨[genesis_block], [], []⟩ : Blockchain).register_node "http://192.168.0.5:5000" =
      some ⟨[genesis_block], [], ["192.168.0.5:5000"]⟩ :=
  ⟨by decide, by decide,
   (C9_register_idempotent ⟨[genesis_block], [], []⟩ "http://192.168.0.5:5000"
      "192.168.0.5:5000" (by decide) (by decide)).1⟩

/-- Counterexample for C9 as stated: at the address `"http://["` CPython's
`urlparse` raises `ValueError` ("Invalid IPv6 URL"), so `register_node`
propagates the error and stores nothing — no scheme-less `host:port`
identity enters the peer set for this address string. -/
theorem C9_register_valueerror_counterexample :
    netloc "http://[" = none ∧
    (⟨[genesis_block], [], []⟩ : Blockchain).register_node "http://[" = none :=
  ⟨rfl, rfl⟩

/-- **C10** (confirmed).  A provided-but-falsy `previous_hash` (`0` or `""`)
is replaced by the hash of the last block; a truthy one is used as given. -/
theorem C10_falsy_previous_hash (self : Blockchain) (lb : Block)
    (h : self.last_block = some lb) (proof : Int) :
    ((self.new_block proof (some (.num 0))).map fun r => r.1.previous_hash) =
      some (.str (Blockchain.hash lb)) ∧
    ((self.new_block proof (some (.str ""))).map fun r => r.1.previous_hash) =
      some (.str (Blockchain.hash lb)) ∧
    ∀ v : HashVal, truthy v = true →
      ((self.new_block proof (some v)).map fun r => r.1.previous_hash) = some v := by
  refine ⟨?_, ?_, fun v hv => ?_⟩
  · simp [Blockchain.new_block, Blockchain.previous_hash_value, truthy, h]
  · simp [Blockchain.new_block, Blockchain.previous_hash_value, truthy, h]
  · simp [Blockchain.new_block, Blockchain.previous_hash_value, hv]

/-- Witness for C10 at the freshly constructed ledger. -/
theorem C10_falsy_previous_hash_witness :
    Blockchain.init.last_block = some genesis_block ∧
    ((Blockchain.init.new_block 7 (some (.num 0))).map fun r => r.1.previous_hash) =
      some (.str (Blockchain.hash genesis_block)) :=
  ⟨rfl, (C10_falsy_previous_hash Blockchain.init genesis_block rfl 7).1⟩

/-- **C1** (corrected).  When every well-formed 200 response reports the true
length of the chain it carries, `resolve_conflicts` never shortens the local
chain, and when it reports `replaced = false` the local chain is exactly the
original.  (Without that honesty assumption the code trusts the reported
`length`, see the counterexample.) -/
theorem C1_resolve_monotone (self : Blockchain) (rs : List PeerResponse)
    (res : Bool × Blockchain) (hh : ∀ r ∈ rs, honest r = true)
    (h : self.resolve_conflicts rs = some res) :
    self.chain.length ≤ res.2.chain.length ∧ (res.1 = false → res.2 = self) := by
  have hinv := resolve_loop_invariant rs self false res hh h
  exact ⟨hinv.1, fun hf => (hinv.2 hf).2⟩

/-- Witness for C1 at a skipped 404 response. -/
theorem C1_resolve_monotone_witness :
    honest (.ok 404 none) = true ∧
    Blockchain.resolve_conflicts ⟨[genesis_block], [], []⟩ [.ok 404 none] =
      some (false, ⟨[genesis_block], [], []⟩) ∧
    (⟨[genesis_block], [], []⟩ : Blockchain).chain.length ≤
      ((false, (⟨[genesis_block], [], []⟩ : Blockchain)) : Bool × Blockchain).2.chain.length :=
  ⟨by decide, rfl,
   (C1_resolve_monotone ⟨[genesis_block], [], []⟩ [.ok 404 none]
      (false, ⟨[genesis_block], [], []⟩) (by decide) rfl).1⟩

/-- Counterexample for C1 as stated: a peer over-reporting its length
(`length = 5` for a one-block chain) makes `resolve_conflicts` replace a
two-block local chain with the one-block chain — the chain shrinks. -/
theorem C1_resolve_shortens_counterexample :
    Blockchain.resolve_conflicts ⟨[genesis_block, ⟨2, [], 0, .str "x"⟩], [], []⟩
        [.ok 200 (some (5, [genesis_block]))] =
      some (true, ⟨[genesis_block], [], []⟩) ∧
    ([genesis_block] : List Block).length <
      ([genesis_block, ⟨2, [], 0, .str "x"⟩] : List Block).length :=
  ⟨rfl, by decide⟩

/-- **C3** (corrected).  Changing the `previous_hash` field of any non-first
block of a valid chain to any different value makes `valid_chain` return
false.  (Mutations of `index` or `transactions` are detected only through
the successor's `previous_hash` check, so mutating the last block's `index`
goes undetected — see the counterexample.) -/
theorem C3_previous_hash_tamper (l₁ l₂ : List Block) (a b : Block) (ph : HashVal)
    (hv : Blockchain.valid_chain (l₁ ++ a :: b :: l₂) = some true)
    (hne : ph ≠ b.previous_hash) :
    Blockchain.valid_chain (l₁ ++ a :: { b with previous_hash := ph } :: l₂) = some false := by
  have hok : chainPairsOk (l₁ ++ a :: b :: l₂) = true := by
    have heq := valid_chain_eq_pairs (l₁ ++ a :: b :: l₂) (by cases l₁ <;> simp)
    rw [heq] at hv
    exact Option.some.inj hv
  have hpair := chainPairsOk_pair l₁ l₂ hok
  rw [pairHolds, Bool.and_eq_true] at hpair
  have hb : b.previous_hash = .str (Blockchain.hash a) :=
    (prevHashMatches_iff _ _).mp hpair.1
  have hph : prevHashMatches ph (Blockchain.hash a) = false := by
    cases ph with
    | num n => rfl
    | str s =>
      have hs : s ≠ Blockchain.hash a := by
        intro he
        exact hne (by rw [hb, he])
      simpa [prevHashMatches] using hs
  have hfail : pairHolds a { b with previous_hash := ph } = false := by
    simp [pairHolds, hph]
  have hbad := chainPairsOk_break l₁ l₂ hfail
  rw [valid_chain_eq_pairs _ (by cases l₁ <;> simp), hbad]

/-- Witness for C3 on a concrete valid two-block chain with a tampered
`previous_hash`. -/
theorem C3_previous_hash_tamper_witness :
    (HashVal.str "x" ≠
      HashVal.str "ee16df073a201132886c6d91a0a3798115f7551ac86f74e31811968cd77a782d") ∧
    Blockchain.valid_chain [genesis_block, ⟨2, [], 35293, .str "x"⟩] = some false :=
  ⟨by decide,
   C3_previous_hash_tamper [] [] genesis_block
     ⟨2, [], 35293, .str "ee16df073a201132886c6d91a0a3798115f7551ac86f74e31811968cd77a782d"⟩
     (.str "x") (by decide) (by decide)⟩

/-- Counterexample for C3 as stated: in a concrete valid two-block chain,
changing the `index` field of the second (non-first, last) block from 2 to
99 leaves `valid_chain` true, because `valid_chain` never reads `index` and
the last block's hash is not checked by anyone. -/
theorem C3_index_tamper_counterexample :
    Blockchain.valid_chain
      [genesis_block,
       ⟨2, [], 35293, .str "ee16df073a201132886c6d91a0a3798115f7551ac86f74e31811968cd77a782d"⟩] =
      some true ∧
    Blockchain.valid_chain
      [genesis_block,
       ⟨99, [], 35293, .str "ee16df073a201132886c6d91a0a3798115f7551ac86f74e31811968cd77a782d"⟩] =
      some true :=
  ⟨by decide, by decide⟩

/-- **C6** (confirmed).  `new_transaction` only buffers the transaction and
returns the last block's index plus one; `new_block` seals exactly the
buffered transactions and clears the buffer; on a genesis-only ledger the
scenario returns index 2, seals block 2 with exactly that transaction, and
an immediate second seal carries no transactions. -/
theorem C6_transaction_lifecycle :
    (∀ (self : Blockchain) (lb : Block) (sender recipient : String) (amount : Int),
      self.last_block = some lb →
      self.new_transaction sender recipient amount =
        some (lb.index + 1,
          { self with current_transactions :=
              self.current_transactions ++ [⟨sender, recipient, amount⟩] })) ∧
    (∀ (self : Blockchain) (proof : Int) (ph : Option HashVal) (block : Block)
      (self' : Blockchain), self.new_block proof ph = some (block, self') →
      block.transactions = self.current_transactions ∧
      self'.current_transactions = [] ∧
      self'.chain = self.chain ++ [block] ∧
      block.index = (self.chain.length : Int) + 1) ∧
    (Blockchain.init.new_transaction "a" "b" 5 =
      some (2, { Blockchain.init with current_transactions := [⟨"a", "b", 5⟩] })) ∧
    (∀ proof : Int,
      (⟨[genesis_block], [⟨"a", "b", 5⟩], []⟩ : Blockchain).new_block proof (some (.str "h")) =
        some (⟨2, [⟨"a", "b", 5⟩], proof, .str "h"⟩,
          ⟨[genesis_block, ⟨2, [⟨"a", "b", 5⟩], proof, .str "h"⟩], [], []⟩)) ∧
    (∀ p proof : Int,
      ((⟨[genesis_block, ⟨2, [⟨"a", "b", 5⟩], p, .str "h"⟩], [], []⟩ : Blockchain).new_block
          proof (some (.str "g"))).map (fun r => r.1.transactions) = some []) := by
  refine ⟨?_, ?_, rfl, fun proof => rfl, fun p proof => rfl⟩
  · intro self lb sender recipient amount h
    unfold Blockchain.new_transaction
    rw [h]
    rfl
  · intro self proof ph block self' h
    cases hph : self.previous_hash_value ph with
    | none =>
      rw [Blockchain.new_block, hph] at h
      exact absurd h (by simp)
    | some v =>
      rw [new_block_some self proof ph v hph] at h
      have hpair := Option.some.inj h
      have hblock : (⟨(self.chain.length : Int) + 1,
          self.current_transactions, proof, v⟩ : Block) = block :=
        congrArg Prod.fst hpair
      have hself : ({ self with
          chain := self.chain ++
            [⟨(self.chain.length : Int) + 1, self.current_transactions, proof, v⟩],
          current_transactions := [] } : Blockchain) = self' :=
        congrArg Prod.snd hpair
      subst hblock
      subst hself
      exact ⟨rfl, rfl, rfl, rfl⟩

/-- Witness for C6 at the freshly constructed ledger. -/
theorem C6_transaction_lifecycle_witness :
    Blockchain.init.last_block = some genesis_block ∧
    Blockchain.init.new_transaction "a" "b" 5 =
      some (genesis_block.index + 1,
        { Blockchain.init with current_transactions := [⟨"a", "b", 5⟩] }) :=
  ⟨rfl, C6_transaction_lifecycle.1 Blockchain.init genesis_block "a" "b" 5 rfl⟩

/-- **C7** (confirmed).  The block hash is a function of the dictionary's
entries alone: permuting the insertion order of duplicate-free fields does
not change the digest, and `Blockchain.hash` is this dictionary hash applied
to the block's fields. -/
theorem C7_hash_order_independent (f₁ f₂ : List (String × JVal))
    (hperm : f₁.Perm f₂) (hnd : (f₁.map Prod.fst).Nodup) :
    hashDict f₁ = hashDict f₂ ∧
    ∀ block : Block, Blockchain.hash block = hashDict (blockFields block) :=
  ⟨hashDict_eq_of_perm f₁ f₂ hperm hnd, fun _ => rfl⟩

/-- Witness for C7: the genesis block's fields in source insertion order and
in another order hash identically. -/
theorem C7_hash_order_independent_witness :
    ((blockFields genesis_block).Perm
      [("previous_hash", .num 1), ("proof", .num 100), ("index", .num 1),
       ("transactions", .txs [])]) ∧
    ((blockFields genesis_block).map Prod.fst).Nodup ∧
    hashDict (blockFields genesis_block) =
      hashDict [("previous_hash", .num 1), ("proof", .num 100), ("index", .num 1),
        ("transactions", .txs [])] :=
  ⟨by decide, by decide,
   (C7_hash_order_independent (blockFields genesis_block)
      [("previous_hash", .num 1), ("proof", .num 100), ("index", .num 1),
       ("transactions", .txs [])] (by decide) (by decide)).1⟩

/-- **C8** (confirmed).  Construction creates exactly the genesis block
(index 1, proof 100), operations keep the chain non-empty, and `last_block`
fails exactly on the empty (pre-genesis) chain. -/
theorem C8_genesis_invariant :
    (Blockchain.new_block ⟨[], [], []⟩ 100 (some (.num 1)) =
      some (genesis_block, Blockchain.init)) ∧
    genesis_block.index = 1 ∧ genesis_block.proof = 100 ∧
    Blockchain.init.chain = [genesis_block] ∧
    Blockchain.init.last_block = some genesis_block ∧
    (∀ self : Blockchain, self.last_block = none ↔ self.chain = []) ∧
    (∀ (self : Blockchain) (s r : String) (a : Int) (res : Int × Blockchain),
      self.new_transaction s r a = some res → res.2.chain = self.chain) ∧
    (∀ (self : Blockchain) (p : Int) (ph : Option HashVal) (res : Block × Blockchain),
      self.new_block p ph = some res → res.2.chain ≠ []) ∧
    (∀ (self : Blockchain) (rs : List PeerResponse) (res : Bool × Blockchain),
      self.chain ≠ [] → self.resolve_conflicts rs = some res → res.2.chain ≠ []) := by
  refine ⟨rfl, rfl, rfl, rfl, rfl, ?_, ?_, ?_, ?_⟩
  · intro self
    simp [Blockchain.last_block, List.getLast?_eq_none_iff]
  · intro self s r a res h
    cases hlb : self.last_block with
    | none =>
      rw [Blockchain.new_transaction, hlb] at h
      exact absurd h (by simp)
    | some lb =>
      rw [Blockchain.new_transaction, hlb] at h
      simp only [Option.map_some'] at h
      have h' := Option.some.inj h
      subst h'
      rfl
  · intro self p ph res h
    cases hph : self.previous_hash_value ph with
    | none =>
      rw [Blockchain.new_block, hph] at h
      exact absurd h (by simp)
    | some v =>
      rw [new_block_some self p ph v hph] at h
      have h' := Option.some.inj h
      subst h'
      simp
  · intro self rs res hne h
    exact resolve_loop_ne_nil rs self false res hne h

/-- Witness for C8: the preservation clauses instantiated on the
genesis-only ledger. -/
theorem C8_genesis_invariant_witness :
    (Blockchain.init.chain ≠ []) ∧
    Blockchain.init.resolve_conflicts [] = some (false, Blockchain.init) ∧
    ((false, Blockchain.init) : Bool × Blockchain).2.chain ≠ [] :=
  ⟨by decide, rfl,
   C8_genesis_invariant.2.2.2.2.2.2.2.2 Blockchain.init [] (false, Blockchain.init)
     (by decide) rfl⟩

end LearnBlockchain
